import Mathlib

/-!
Shallow embedding of the `i256` crate's 256-bit integer core.

The crate stores a 256-bit integer as `LIMBS` native unsigned limbs
(4 x 64-bit or 8 x 32-bit, native-endian).  The macro layer in
`src/ints/shared_macros.rs` defines the public operations in terms of a
small set of primitives (`overflowing_add`, `wrapping_mul`,
`wrapping_div_rem`, `math::shl_u128`, `is_div_none`, ...) whose bodies
live in files that are not part of the examined sources; those
primitives are modelled from the specification (each such definition
carries a doc comment starting with `Modelled from the spec:`), while
everything visible in `shared_macros.rs` / `ints/u256.rs` is translated
directly.

Values of the unsigned type are represented by their numeric value, a
natural number below `2 ^ 256`; values of the signed type by an integer
in `[-2 ^ 255, 2 ^ 255)`.  The limb-array representation (used by the
byte-order, comparison and bit-reversal operations) is embedded
separately as an explicit little-endian limb structure, matching a
little-endian host, which is where the `cfg!(target_endian)` branches
of the source are resolved.
-/

set_option maxRecDepth 8000

/-! ## Definitions -/

namespace u256

/-- The modulus of the 256-bit unsigned type. -/
def M : Nat := 2 ^ 256

/-- Modelled from the spec: `overflowing_add` (uint/overflowing.rs is not in
the examined sources).  Limb-by-limb sum with carry propagation; the wrapped
sum together with the final carry-out, which for the unsigned type signals
that the true sum exceeded the representable range. -/
def overflowing_add (a b : Nat) : Nat × Bool :=
  ((a + b) % M, decide (M ≤ a + b))

/-- Modelled from the spec: `overflowing_add_ulimb`, the single-limb-operand
fast path of `overflowing_add` (uint/limb.rs is not in the examined
sources). -/
def overflowing_add_ulimb (a n : Nat) : Nat × Bool :=
  ((a + n) % M, decide (M ≤ a + n))

/-- Modelled from the spec: `wrapping_add`, the base carry-propagating
addition with the final carry discarded. -/
def wrapping_add (a b : Nat) : Nat := (a + b) % M

/-- Modelled from the spec: `wrapping_mul`, the low `LIMBS` limbs of the full
double-width schoolbook product. -/
def wrapping_mul (a b : Nat) : Nat := a * b % M

/-- `carrying_add` from `shared_macros.rs` (`bigint_define!`): the base
overflowing addition followed by an overflowing addition of the carry bit
into the low limb, OR-combining the two overflow signals. -/
def carrying_add (a rhs : Nat) (carry : Bool) : Nat × Bool :=
  let ab := overflowing_add a rhs
  let cd := overflowing_add_ulimb ab.1 (if carry then 1 else 0)
  (cd.1, ab.2 || cd.2)

/-- Modelled from the spec: `wrapping_div_rem`, the general long-division
engine (uint/wrapping.rs is not in the examined sources).  It produces the
exact quotient and remainder and fails (panics, embedded as `none`) only on a
zero divisor. -/
def wrapping_div_rem (a n : Nat) : Option (Nat × Nat) :=
  if n = 0 then none else some (a / n, a % n)

/-- Modelled from the spec: `is_div_none` for the unsigned type — the
checked-division failure predicate, true exactly on a zero divisor. -/
def is_div_none (_a n : Nat) : Bool := decide (n = 0)

/-- `checked_div_rem` from `shared_macros.rs` (`checked_define!`): `none`
when `is_div_none`, otherwise the wrapping quotient and remainder. -/
def checked_div_rem (a n : Nat) : Option (Nat × Nat) :=
  if is_div_none a n then none else wrapping_div_rem a n

/-- `div_rem` from `shared_macros.rs` (`ops_define!`), in the default
`not(have_overflow_checks)` configuration: the wrapping quotient and
remainder, panicking (embedded as `none`) on a zero divisor.  The other
configuration is `checked_div_rem` with `None` turned into a panic; the two
agree for the unsigned type (proved below). -/
def div_rem (a n : Nat) : Option (Nat × Nat) := wrapping_div_rem a n

/-- Modelled from the spec: `wrapping_div_rem_ulimb`, the single-limb-divisor
fast path carrying one remainder limb from the most-significant limb
downward; it agrees with the general path on all overlapping inputs and
panics (embedded as `none`) on a zero divisor. -/
def wrapping_div_rem_ulimb (a n : Nat) : Option (Nat × Nat) :=
  if n = 0 then none else some (a / n, a % n)

/-- `overflowing_div_rem_ulimb` from `shared_macros.rs` (`limb_ops_define!
(@overflowing)`): the wrapping result paired with a literal `false` overflow
flag. -/
def overflowing_div_rem_ulimb (a n : Nat) : Option ((Nat × Nat) × Bool) :=
  match wrapping_div_rem_ulimb a n with
  | some qr => some (qr, false)
  | none => none

/-- `overflowing_div_ulimb` from `shared_macros.rs`: the quotient component
of `overflowing_div_rem_ulimb` with its overflow flag. -/
def overflowing_div_ulimb (a n : Nat) : Option (Nat × Bool) :=
  match overflowing_div_rem_ulimb a n with
  | some vo => some (vo.1.1, vo.2)
  | none => none

/-- `overflowing_rem_ulimb` from `shared_macros.rs`: the remainder component
of `overflowing_div_rem_ulimb` with its overflow flag. -/
def overflowing_rem_ulimb (a n : Nat) : Option (Nat × Bool) :=
  match overflowing_div_rem_ulimb a n with
  | some vo => some (vo.1.2, vo.2)
  | none => none

/-- The value as two 128-bit halves: `low` is `get_wide(0)`
(`high_low_define!` in `shared_macros.rs`). -/
def low (a : Nat) : Nat := a % 2 ^ 128

/-- The value as two 128-bit halves: `high` is `get_wide(1)`
(`high_low_define!` in `shared_macros.rs`). -/
def high (a : Nat) : Nat := a / 2 ^ 128 % 2 ^ 128

/-- `new` from `high_low_define!`: rebuild the value from its low and high
128-bit halves (each half contributes its low 128 bits, via the byte-level
flattening of the source). -/
def new (lo hi : Nat) : Nat := lo % 2 ^ 128 + 2 ^ 128 * (hi % 2 ^ 128)

/-- Modelled from the spec: `math::shl_u128`, the limb-boundary-crossing
left shift of the 256-bit value given as two 128-bit halves (the `math`
module is not in the examined sources).  The shift amount is already reduced
modulo 256 by the caller. -/
def shl_u128 (lo hi n : Nat) : Nat × Nat :=
  ((lo + 2 ^ 128 * hi) * 2 ^ n % M % 2 ^ 128,
   (lo + 2 ^ 128 * hi) * 2 ^ n % M / 2 ^ 128)

/-- Modelled from the spec: `math::shr_u128`, the limb-boundary-crossing
logical right shift of the 256-bit value given as two 128-bit halves. -/
def shr_u128 (lo hi n : Nat) : Nat × Nat :=
  ((lo + 2 ^ 128 * hi) / 2 ^ n % 2 ^ 128,
   (lo + 2 ^ 128 * hi) / 2 ^ n / 2 ^ 128)

/-- `wrapping_shl` from `ints/u256.rs`: reduce the amount modulo `BITS`,
split into halves, shift, and rebuild. -/
def wrapping_shl (a rhs : Nat) : Nat :=
  new (shl_u128 (low a) (high a) (rhs % 256)).1
    (shl_u128 (low a) (high a) (rhs % 256)).2

/-- `wrapping_shr` from `ints/u256.rs`: reduce the amount modulo `BITS`,
split into halves, shift, and rebuild. -/
def wrapping_shr (a rhs : Nat) : Nat :=
  new (shr_u128 (low a) (high a) (rhs % 256)).1
    (shr_u128 (low a) (high a) (rhs % 256)).2

/-- `checked_shl` from `shared_macros.rs` (`checked_define!`): `none` when
the raw amount is at least `BITS`, otherwise the wrapping shift. -/
def checked_shl (a rhs : Nat) : Option Nat :=
  if rhs < 256 then some (wrapping_shl a rhs) else none

/-- `checked_shr` from `shared_macros.rs` (`checked_define!`). -/
def checked_shr (a rhs : Nat) : Option Nat :=
  if rhs < 256 then some (wrapping_shr a rhs) else none

/-- `strict_shl` from `shared_macros.rs` (`strict_define!`): the checked
shift with the `None` case turned into a panic (embedded as `none`). -/
def strict_shl (a rhs : Nat) : Option Nat :=
  match checked_shl a rhs with
  | some v => some v
  | none => none

/-- `strict_shr` from `shared_macros.rs` (`strict_define!`). -/
def strict_shr (a rhs : Nat) : Option Nat :=
  match checked_shr a rhs with
  | some v => some v
  | none => none

/-- `unbounded_shl` from `shared_macros.rs` (`unbounded_define!`): the
wrapping shift for in-range amounts and zero otherwise. -/
def unbounded_shl (a rhs : Nat) : Nat :=
  if rhs < 256 then wrapping_shl a rhs else 0

/-- `unbounded_shr` from `shared_macros.rs` (`unbounded_define!`). -/
def unbounded_shr (a rhs : Nat) : Nat :=
  if rhs < 256 then wrapping_shr a rhs else 0

end u256

/-! ### C6: wrapping exponentiation by squaring -/

namespace u256

/-- The loop body of `wrapping_pow` from `shared_macros.rs`
(`wrapping_define!`): while the exponent is nonzero, square the base and
halve the exponent, multiplying the base into the accumulator whenever the
low bit of the exponent is set; when the exponent reaches 1 on an odd step,
return the updated accumulator.  The `exp = 0` guard mirrors the source's
`debug_assert!(exp != 0)` unreachable-state assertion. -/
def pow_loop (acc base exp : Nat) : Nat :=
  if _h : exp = 0 then acc
  else if exp % 2 = 1 then
    if exp = 1 then wrapping_mul acc base
    else pow_loop (wrapping_mul acc base) (wrapping_mul base base) (exp / 2)
  else pow_loop acc (wrapping_mul base base) (exp / 2)
termination_by exp
decreasing_by all_goals omega

/-- `wrapping_pow` from `shared_macros.rs` (`wrapping_define!`): 1 on a zero
exponent, otherwise the exponentiation-by-squaring loop started with
accumulator 1. -/
def wrapping_pow (a exp : Nat) : Nat :=
  if exp = 0 then 1 else pow_loop 1 a exp

end u256

/-! ### The signed 256-bit type at value level

Signed values are represented by integers in `[-2 ^ 255, 2 ^ 255)`. -/

namespace i256

/-- The smallest signed 256-bit value. -/
def MIN : Int := -(2 ^ 255)

/-- Two's-complement truncation of an integer into the signed 256-bit
range. -/
def wrapInt (v : Int) : Int := (v + 2 ^ 255) % 2 ^ 256 - 2 ^ 255

/-- Modelled from the spec: signed `wrapping_mul`, the low 256 bits of the
schoolbook product reinterpreted in two's complement. -/
def wrapping_mul (a b : Int) : Int := wrapInt (a * b)

/-- Modelled from the spec: signed `wrapping_add`. -/
def wrapping_add (a b : Int) : Int := wrapInt (a + b)

/-- Modelled from the spec: signed `wrapping_div_rem` (int/wrapping.rs is
not in the examined sources).  Truncating quotient and remainder computed on
the magnitudes, wrapped into range (so `MIN / -1` wraps back to `MIN`), and
a panic (embedded as `none`) on a zero divisor. -/
def wrapping_div_rem (a n : Int) : Option (Int × Int) :=
  if n = 0 then none else some (wrapInt (a.tdiv n), wrapInt (a.tmod n))

/-- Modelled from the spec: signed `wrapping_div`, the quotient component of
the truncating division, wrapped. -/
def wrapping_div (a n : Int) : Option Int :=
  if n = 0 then none else some (wrapInt (a.tdiv n))

/-- Modelled from the spec: signed `wrapping_rem`, the remainder component
of the truncating division, wrapped. -/
def wrapping_rem (a n : Int) : Option Int :=
  if n = 0 then none else some (wrapInt (a.tmod n))

/-- Modelled from the spec: `is_div_none` for the signed type — the failure
predicate that `checked_div_rem`, `checked_div` and `checked_rem` all
delegate to (`shared_macros.rs` lines 1693-1725): a zero divisor or the
forbidden `MIN / -1` division. -/
def is_div_none (a n : Int) : Bool :=
  decide (n = 0) || (decide (a = MIN) && decide (n = -1))

/-- `checked_div` from `shared_macros.rs` (`checked_define!`): `none` when
`is_div_none`, otherwise the wrapping quotient. -/
def checked_div (a n : Int) : Option Int :=
  if is_div_none a n then none else wrapping_div a n

/-- `checked_rem` from `shared_macros.rs` (`checked_define!`): `none` when
`is_div_none` — the very same predicate as `checked_div` — otherwise the
wrapping remainder. -/
def checked_rem (a n : Int) : Option Int :=
  if is_div_none a n then none else wrapping_rem a n

/-- Modelled from the spec: signed `overflowing_add` — the wrapped sum
together with the overflow signal (operands of equal sign whose result's
sign differs), which for in-range operands holds exactly when the true sum
leaves the representable range. -/
def overflowing_add (a b : Int) : Int × Bool :=
  (wrapInt (a + b), decide (a + b < -(2 ^ 255) ∨ 2 ^ 255 ≤ a + b))

/-- Modelled from the spec: signed `overflowing_add_ulimb`, the
single-limb-operand fast path adding an unsigned limb. -/
def overflowing_add_ulimb (a : Int) (n : Nat) : Int × Bool :=
  (wrapInt (a + n), decide (a + (n : Int) < -(2 ^ 255) ∨ 2 ^ 255 ≤ a + n))

/-- `carrying_add` for the signed type, from the same `bigint_define!`
macro body of `shared_macros.rs`. -/
def carrying_add (a rhs : Int) (carry : Bool) : Int × Bool :=
  let ab := overflowing_add a rhs
  let cd := overflowing_add_ulimb ab.1 (if carry then 1 else 0)
  (cd.1, ab.2 || cd.2)

end i256

/-! ### Generic limb lists and C4: reverse_bits

`reverse_bits` and `swap_bytes` are generic over the limb configuration
(4 x 64-bit limbs or 8 x 32-bit limbs).  For C4 the loop of the source is
embedded generically over the configuration, acting on the little-endian
list of limbs. -/

/-- The little-endian base-`b` digits of `v`, `k` of them. -/
def leDigits (b : Nat) : Nat → Nat → List Nat
  | 0, _ => []
  | k + 1, v => (v % b) :: leDigits b k (v / b)

/-- Recombine little-endian base-`b` digits into a number. -/
def fromDigits (b : Nat) : List Nat → Nat
  | [] => 0
  | d :: ds => d + b * fromDigits b ds

/-- `ULimb::reverse_bits` for a `w`-bit limb: reverse the order of the `w`
bits. -/
def revBits (w v : Nat) : Nat := fromDigits 2 ((leDigits 2 w v).reverse)

/-- The numeric value of a little-endian list of `w`-bit limbs. -/
def limbsValue (w : Nat) (ls : List Nat) : Nat := fromDigits (2 ^ w) ls

/-- `reverse_bits` from `shared_macros.rs` (`byte_order_define!`), acting on
the little-endian limb list of a configuration with `n` limbs of `w` bits:
the loop runs `while i < 4` (a hardcoded 4, unlike the `while i < LIMBS` of
`swap_bytes`) writing `r.limbs[i] = self.limbs[LIMBS - 1 - i].reverse_bits()`
into a zero-initialised result. -/
def reverse_bits_limbs (w n : Nat) (ls : List Nat) : List Nat :=
  (List.range n).map (fun i => if i < 4 then revBits w (ls.getD (n - 1 - i) 0) else 0)

/-- `ULimb::swap_bytes` for a `w`-bit limb (`w` a multiple of 8): reverse
the order of the limb's bytes. -/
def bswapLimb (w v : Nat) : Nat := fromDigits 256 ((leDigits 256 (w / 8) v).reverse)

/-- `swap_bytes` from `shared_macros.rs` (`byte_order_define!`), acting on
the little-endian limb list of a configuration with `n` limbs of `w` bits:
the loop runs `while i < Self::LIMBS` writing
`r.limbs[i] = self.limbs[LIMBS - 1 - i].swap_bytes()`. -/
def swap_bytes_limbs (w n : Nat) (ls : List Nat) : List Nat :=
  (List.range n).map (fun i => bswapLimb w (ls.getD (n - 1 - i) 0))

/-! ### The stored limb representation (4 x 64-bit, little-endian host)

The byte-order component is embedded for the canonical configuration: four
64-bit limbs, least significant first, on a little-endian host (all
`cfg!(target_endian)` branches of the source are resolved to the
little-endian arm, and the raw-memory transmutes between equally sized
arrays are spelled out as little-endian byte group splits and joins). -/

/-- The stored form of the 256-bit integer: four 64-bit limbs, least
significant first. -/
structure Limbs256 where
  limb0 : Nat
  limb1 : Nat
  limb2 : Nat
  limb3 : Nat
deriving DecidableEq

namespace Limbs256

/-- Well-formed storage: every limb holds a 64-bit value. -/
def Wf (x : Limbs256) : Prop :=
  x.limb0 < 2 ^ 64 ∧ x.limb1 < 2 ^ 64 ∧ x.limb2 < 2 ^ 64 ∧ x.limb3 < 2 ^ 64

/-- The little-endian bytes of one 64-bit limb. -/
def leBytes8 (v : Nat) : List Nat :=
  [v % 256, v / 2 ^ 8 % 256, v / 2 ^ 16 % 256, v / 2 ^ 24 % 256,
   v / 2 ^ 32 % 256, v / 2 ^ 40 % 256, v / 2 ^ 48 % 256, v / 2 ^ 56 % 256]

/-- Recombine eight little-endian bytes into a 64-bit limb. -/
def fromLE8 (b0 b1 b2 b3 b4 b5 b6 b7 : Nat) : Nat :=
  b0 + 2 ^ 8 * b1 + 2 ^ 16 * b2 + 2 ^ 24 * b3 +
    2 ^ 32 * b4 + 2 ^ 40 * b5 + 2 ^ 48 * b6 + 2 ^ 56 * b7

/-- `ULimb::swap_bytes` for a 64-bit limb. -/
def bswap64 (v : Nat) : Nat :=
  fromLE8 (v / 2 ^ 56 % 256) (v / 2 ^ 48 % 256) (v / 2 ^ 40 % 256)
    (v / 2 ^ 32 % 256) (v / 2 ^ 24 % 256) (v / 2 ^ 16 % 256)
    (v / 2 ^ 8 % 256) (v % 256)

/-- `to_ne_bytes` from `byte_order_define!`: the limb array reinterpreted as
bytes — on a little-endian host, each limb's little-endian bytes in limb
order. -/
def to_ne_bytes (x : Limbs256) : List Nat :=
  leBytes8 x.limb0 ++ leBytes8 x.limb1 ++ leBytes8 x.limb2 ++ leBytes8 x.limb3

/-- `from_ne_bytes` from `byte_order_define!`: bytes reinterpreted as the
limb array. -/
def from_ne_bytes (bs : List Nat) : Limbs256 :=
  ⟨fromLE8 (bs.getD 0 0) (bs.getD 1 0) (bs.getD 2 0) (bs.getD 3 0)
     (bs.getD 4 0) (bs.getD 5 0) (bs.getD 6 0) (bs.getD 7 0),
   fromLE8 (bs.getD 8 0) (bs.getD 9 0) (bs.getD 10 0) (bs.getD 11 0)
     (bs.getD 12 0) (bs.getD 13 0) (bs.getD 14 0) (bs.getD 15 0),
   fromLE8 (bs.getD 16 0) (bs.getD 17 0) (bs.getD 18 0) (bs.getD 19 0)
     (bs.getD 20 0) (bs.getD 21 0) (bs.getD 22 0) (bs.getD 23 0),
   fromLE8 (bs.getD 24 0) (bs.getD 25 0) (bs.getD 26 0) (bs.getD 27 0)
     (bs.getD 28 0) (bs.getD 29 0) (bs.getD 30 0) (bs.getD 31 0)⟩

/-- `swap_bytes` from `byte_order_define!`, for `LIMBS = 4`: reverse the
limb order and byte-swap each limb. -/
def swap_bytes (x : Limbs256) : Limbs256 :=
  ⟨bswap64 x.limb3, bswap64 x.limb2, bswap64 x.limb1, bswap64 x.limb0⟩

/-- `to_be` on a little-endian host: swap the bytes. -/
def to_be (x : Limbs256) : Limbs256 := swap_bytes x

/-- `to_le` on a little-endian host: the identity. -/
def to_le (x : Limbs256) : Limbs256 := x

/-- `to_be_bytes`: `self.to_be().to_ne_bytes()`. -/
def to_be_bytes (x : Limbs256) : List Nat := to_ne_bytes (to_be x)

/-- `to_le_bytes`: `self.to_le().to_ne_bytes()`. -/
def to_le_bytes (x : Limbs256) : List Nat := to_ne_bytes (to_le x)

/-- `from_be_bytes`: `from_ne_bytes(bytes).to_be()`. -/
def from_be_bytes (bs : List Nat) : Limbs256 := to_be (from_ne_bytes bs)

/-- `from_le_bytes`: `from_ne_bytes(bytes).to_le()`. -/
def from_le_bytes (bs : List Nat) : Limbs256 := to_le (from_ne_bytes bs)

/-- `to_ne_limbs`: the stored limb array. -/
def to_ne_limbs (x : Limbs256) : List Nat :=
  [x.limb0, x.limb1, x.limb2, x.limb3]

/-- `from_ne_limbs`: store the limb array. -/
def from_ne_limbs (ls : List Nat) : Limbs256 :=
  ⟨ls.getD 0 0, ls.getD 1 0, ls.getD 2 0, ls.getD 3 0⟩

/-- `to_be_limbs` on a little-endian host: `swap_array!` of the native
limbs. -/
def to_be_limbs (x : Limbs256) : List Nat := (to_ne_limbs x).reverse

/-- `to_le_limbs` on a little-endian host: the native limbs. -/
def to_le_limbs (x : Limbs256) : List Nat := to_ne_limbs x

/-- `from_be_limbs` on a little-endian host: `from_ne_limbs(swap_array!)`. -/
def from_be_limbs (ls : List Nat) : Limbs256 := from_ne_limbs ls.reverse

/-- `from_le_limbs` on a little-endian host. -/
def from_le_limbs (ls : List Nat) : Limbs256 := from_ne_limbs ls

/-- `to_ne_wide`: the bytes reinterpreted as two 128-bit words — on a
little-endian host each word is a 16-byte little-endian group, so each wide
word is the low 64 bits of the even limb plus `2 ^ 64` times the low 64
bits of the odd limb. -/
def to_ne_wide (x : Limbs256) : List Nat :=
  [x.limb0 % 2 ^ 64 + 2 ^ 64 * (x.limb1 % 2 ^ 64),
   x.limb2 % 2 ^ 64 + 2 ^ 64 * (x.limb3 % 2 ^ 64)]

/-- `from_ne_wide`: two 128-bit words reinterpreted as the limb array via
their little-endian bytes. -/
def from_ne_wide (ws : List Nat) : Limbs256 :=
  ⟨ws.getD 0 0 % 2 ^ 64, ws.getD 0 0 / 2 ^ 64 % 2 ^ 64,
   ws.getD 1 0 % 2 ^ 64, ws.getD 1 0 / 2 ^ 64 % 2 ^ 64⟩

/-- `to_be_wide` on a little-endian host. -/
def to_be_wide (x : Limbs256) : List Nat := (to_ne_wide x).reverse

/-- `to_le_wide` on a little-endian host. -/
def to_le_wide (x : Limbs256) : List Nat := to_ne_wide x

/-- `from_be_wide` on a little-endian host. -/
def from_be_wide (ws : List Nat) : Limbs256 := from_ne_wide ws.reverse

/-- `from_le_wide` on a little-endian host. -/
def from_le_wide (ws : List Nat) : Limbs256 := from_ne_wide ws

/-- `to_ne_u32`: the bytes reinterpreted as eight 32-bit words. -/
def to_ne_u32 (x : Limbs256) : List Nat :=
  [x.limb0 % 2 ^ 32, x.limb0 / 2 ^ 32 % 2 ^ 32,
   x.limb1 % 2 ^ 32, x.limb1 / 2 ^ 32 % 2 ^ 32,
   x.limb2 % 2 ^ 32, x.limb2 / 2 ^ 32 % 2 ^ 32,
   x.limb3 % 2 ^ 32, x.limb3 / 2 ^ 32 % 2 ^ 32]

/-- `from_ne_u32`: eight 32-bit words reinterpreted as the limb array. -/
def from_ne_u32 (xs : List Nat) : Limbs256 :=
  ⟨xs.getD 0 0 % 2 ^ 32 + 2 ^ 32 * (xs.getD 1 0 % 2 ^ 32),
   xs.getD 2 0 % 2 ^ 32 + 2 ^ 32 * (xs.getD 3 0 % 2 ^ 32),
   xs.getD 4 0 % 2 ^ 32 + 2 ^ 32 * (xs.getD 5 0 % 2 ^ 32),
   xs.getD 6 0 % 2 ^ 32 + 2 ^ 32 * (xs.getD 7 0 % 2 ^ 32)⟩

/-- `to_be_u32` on a little-endian host. -/
def to_be_u32 (x : Limbs256) : List Nat := (to_ne_u32 x).reverse

/-- `to_le_u32` on a little-endian host. -/
def to_le_u32 (x : Limbs256) : List Nat := to_ne_u32 x

/-- `from_be_u32` on a little-endian host. -/
def from_be_u32 (xs : List Nat) : Limbs256 := from_ne_u32 xs.reverse

/-- `from_le_u32` on a little-endian host. -/
def from_le_u32 (xs : List Nat) : Limbs256 := from_ne_u32 xs

/-- `to_ne_u64`: the bytes reinterpreted as four 64-bit words (the limbs
themselves, truncated to their low 8 bytes). -/
def to_ne_u64 (x : Limbs256) : List Nat :=
  [x.limb0 % 2 ^ 64, x.limb1 % 2 ^ 64, x.limb2 % 2 ^ 64, x.limb3 % 2 ^ 64]

/-- `from_ne_u64`: four 64-bit words reinterpreted as the limb array. -/
def from_ne_u64 (xs : List Nat) : Limbs256 :=
  ⟨xs.getD 0 0 % 2 ^ 64, xs.getD 1 0 % 2 ^ 64,
   xs.getD 2 0 % 2 ^ 64, xs.getD 3 0 % 2 ^ 64⟩

/-- `to_be_u64` on a little-endian host. -/
def to_be_u64 (x : Limbs256) : List Nat := (to_ne_u64 x).reverse

/-- `to_le_u64` on a little-endian host. -/
def to_le_u64 (x : Limbs256) : List Nat := to_ne_u64 x

/-- `from_be_u64` on a little-endian host. -/
def from_be_u64 (xs : List Nat) : Limbs256 := from_ne_u64 xs.reverse

/-- `from_le_u64` on a little-endian host. -/
def from_le_u64 (xs : List Nat) : Limbs256 := from_ne_u64 xs

end Limbs256

namespace Limbs256

/-- The low native-endian wide word (`ne_index!(wide[0])`). -/
def wide0 (x : Limbs256) : Nat := (to_ne_wide x).getD 0 0

/-- The high native-endian wide word (`ne_index!(wide[WIDE - 1])`). -/
def wide1 (x : Limbs256) : Nat := (to_ne_wide x).getD 1 0

end Limbs256

/-- Reinterpret an unsigned 128-bit word as a signed 128-bit value (the
`as i128` cast on the top wide word of the signed comparisons). -/
def toSigned128 (v : Nat) : Int :=
  if v < 2 ^ 127 then (v : Int) else (v : Int) - 2 ^ 128

/-! ### C3: the comparison loops

`cmp_define!` in `shared_macros.rs` defines `eq_const`, `lt_const`,
`le_const`, `gt_const`, `ge_const` and `cmp_const` over the native-endian
wide-word array, comparing the top word with the `hi` type and the lower
words with the `lo` type.  For the unsigned type both are the unsigned
128-bit word; for the signed type the top word is compared as a signed
128-bit value.  The elements are embedded as integers so the same loops
serve both instantiations.  The `short_circuit => true` and
`short_circuit => false` macro arms expand to byte-identical bodies for the
ordering loops and to two different loops for `eq_const`. -/

/-- The descending loop of `cmp_define!(@ord)`: flags are initialised from
the top (already consumed) word; while no order is established and all
words so far were equal, recompute both flags from the next word down with
`op2`; finally return the order flag. -/
def ordGo (op2 : Int → Int → Bool) : List (Int × Int) → Bool → Bool → Bool
  | [], is_ord, _is_eq => is_ord
  | p :: rest, is_ord, is_eq =>
    if !is_ord && is_eq then ordGo op2 rest (op2 p.1 p.2) (p.1 == p.2)
    else is_ord

/-- The descending loop of `cmp_define!(@cmp)`: three flags, recomputed
wholesale from each next word down while no order is established, followed
by the final `Less` / `Greater` / `Equal` selection. -/
def cmpGo : List (Int × Int) → Bool → Bool → Bool → Ordering
  | [], _is_eq, is_lt, is_gt =>
    if is_lt then .lt else if is_gt then .gt else .eq
  | p :: rest, is_eq, is_lt, is_gt =>
    if !is_lt && !is_gt && is_eq then
      cmpGo rest (p.1 == p.2) (decide (p.1 < p.2)) (decide (p.2 < p.1))
    else if is_lt then .lt else if is_gt then .gt else .eq

/-- The non-short-circuiting `eq_const` loop: visit every word, AND-ing the
equality flags. -/
def eqGoNS : List (Int × Int) → Bool → Bool
  | [], acc => acc
  | p :: rest, acc => eqGoNS rest (acc && (p.1 == p.2))

/-- The short-circuiting `eq_const` loop: `while i < WIDE && is_eq`. -/
def eqGoSC : List (Int × Int) → Bool → Bool
  | [], acc => acc
  | p :: rest, acc =>
    if acc then eqGoSC rest (acc && (p.1 == p.2)) else acc

namespace u256

/-- `eq_const` for `u256` (`short_circuit => false` arm of `cmp_define!`):
the non-short-circuiting equality loop over the native wide words. -/
def eq_const (x y : Limbs256) : Bool :=
  eqGoNS [((x.wide0 : Int), (y.wide0 : Int)),
          ((x.wide1 : Int), (y.wide1 : Int))] true

/-- `eq_const` as the `short_circuit => true` arm expands it: the loop that
stops as soon as the flag is false. -/
def eq_const_short (x y : Limbs256) : Bool :=
  eqGoSC [((x.wide0 : Int), (y.wide0 : Int)),
          ((x.wide1 : Int), (y.wide1 : Int))] true

/-- `lt_const` for `u256`: the `@ord` loop, top word first, strict
comparisons throughout. -/
def lt_const (x y : Limbs256) : Bool :=
  ordGo (fun a b => decide (a < b)) [((x.wide0 : Int), (y.wide0 : Int))]
    (decide ((x.wide1 : Int) < (y.wide1 : Int)))
    ((x.wide1 : Int) == (y.wide1 : Int))

/-- `lt_const` as the `short_circuit => true` arm expands it — the macro
body is identical to the non-short-circuiting one. -/
def lt_const_short (x y : Limbs256) : Bool :=
  ordGo (fun a b => decide (a < b)) [((x.wide0 : Int), (y.wide0 : Int))]
    (decide ((x.wide1 : Int) < (y.wide1 : Int)))
    ((x.wide1 : Int) == (y.wide1 : Int))

/-- `le_const` for `u256`: strict on the top word, non-strict below. -/
def le_const (x y : Limbs256) : Bool :=
  ordGo (fun a b => decide (a ≤ b)) [((x.wide0 : Int), (y.wide0 : Int))]
    (decide ((x.wide1 : Int) < (y.wide1 : Int)))
    ((x.wide1 : Int) == (y.wide1 : Int))

/-- `le_const` as the `short_circuit => true` arm expands it. -/
def le_const_short (x y : Limbs256) : Bool :=
  ordGo (fun a b => decide (a ≤ b)) [((x.wide0 : Int), (y.wide0 : Int))]
    (decide ((x.wide1 : Int) < (y.wide1 : Int)))
    ((x.wide1 : Int) == (y.wide1 : Int))

/-- `gt_const` for `u256`: `!le_const`. -/
def gt_const (x y : Limbs256) : Bool := !le_const x y

/-- `gt_const` as the `short_circuit => true` arm expands it. -/
def gt_const_short (x y : Limbs256) : Bool := !le_const_short x y

/-- `ge_const` for `u256`: `!lt_const`. -/
def ge_const (x y : Limbs256) : Bool := !lt_const x y

/-- `ge_const` as the `short_circuit => true` arm expands it. -/
def ge_const_short (x y : Limbs256) : Bool := !lt_const_short x y

/-- `cmp_const` for `u256`: the `@cmp` loop. -/
def cmp_const (x y : Limbs256) : Ordering :=
  cmpGo [((x.wide0 : Int), (y.wide0 : Int))]
    ((x.wide1 : Int) == (y.wide1 : Int))
    (decide ((x.wide1 : Int) < (y.wide1 : Int)))
    (decide ((y.wide1 : Int) < (x.wide1 : Int)))

/-- `cmp_const` as the `short_circuit => true` arm expands it. -/
def cmp_const_short (x y : Limbs256) : Ordering :=
  cmpGo [((x.wide0 : Int), (y.wide0 : Int))]
    ((x.wide1 : Int) == (y.wide1 : Int))
    (decide ((x.wide1 : Int) < (y.wide1 : Int)))
    (decide ((y.wide1 : Int) < (x.wide1 : Int)))

end u256

namespace i256

/-- `eq_const` for `i256`: identical to the unsigned loop — equality
compares the raw wide words. -/
def eq_const (x y : Limbs256) : Bool :=
  eqGoNS [((x.wide0 : Int), (y.wide0 : Int)),
          ((x.wide1 : Int), (y.wide1 : Int))] true

/-- `eq_const` for `i256`, `short_circuit => true` arm. -/
def eq_const_short (x y : Limbs256) : Bool :=
  eqGoSC [((x.wide0 : Int), (y.wide0 : Int)),
          ((x.wide1 : Int), (y.wide1 : Int))] true

/-- `lt_const` for `i256`: the top wide word is compared as a signed
128-bit value (`hi_t = i128`), the lower one unsigned. -/
def lt_const (x y : Limbs256) : Bool :=
  ordGo (fun a b => decide (a < b)) [((x.wide0 : Int), (y.wide0 : Int))]
    (decide (toSigned128 x.wide1 < toSigned128 y.wide1))
    (toSigned128 x.wide1 == toSigned128 y.wide1)

/-- `lt_const` for `i256`, `short_circuit => true` arm (identical body). -/
def lt_const_short (x y : Limbs256) : Bool :=
  ordGo (fun a b => decide (a < b)) [((x.wide0 : Int), (y.wide0 : Int))]
    (decide (toSigned128 x.wide1 < toSigned128 y.wide1))
    (toSigned128 x.wide1 == toSigned128 y.wide1)

/-- `le_const` for `i256`. -/
def le_const (x y : Limbs256) : Bool :=
  ordGo (fun a b => decide (a ≤ b)) [((x.wide0 : Int), (y.wide0 : Int))]
    (decide (toSigned128 x.wide1 < toSigned128 y.wide1))
    (toSigned128 x.wide1 == toSigned128 y.wide1)

/-- `le_const` for `i256`, `short_circuit => true` arm. -/
def le_const_short (x y : Limbs256) : Bool :=
  ordGo (fun a b => decide (a ≤ b)) [((x.wide0 : Int), (y.wide0 : Int))]
    (decide (toSigned128 x.wide1 < toSigned128 y.wide1))
    (toSigned128 x.wide1 == toSigned128 y.wide1)

/-- `gt_const` for `i256`: `!le_const`. -/
def gt_const (x y : Limbs256) : Bool := !le_const x y

/-- `gt_const` for `i256`, `short_circuit => true` arm. -/
def gt_const_short (x y : Limbs256) : Bool := !le_const_short x y

/-- `ge_const` for `i256`: `!lt_const`. -/
def ge_const (x y : Limbs256) : Bool := !lt_const x y

/-- `ge_const` for `i256`, `short_circuit => true` arm. -/
def ge_const_short (x y : Limbs256) : Bool := !lt_const_short x y

/-- `cmp_const` for `i256`. -/
def cmp_const (x y : Limbs256) : Ordering :=
  cmpGo [((x.wide0 : Int), (y.wide0 : Int))]
    (toSigned128 x.wide1 == toSigned128 y.wide1)
    (decide (toSigned128 x.wide1 < toSigned128 y.wide1))
    (decide (toSigned128 y.wide1 < toSigned128 x.wide1))

/-- `cmp_const` for `i256`, `short_circuit => true` arm. -/
def cmp_const_short (x y : Limbs256) : Ordering :=
  cmpGo [((x.wide0 : Int), (y.wide0 : Int))]
    (toSigned128 x.wide1 == toSigned128 y.wide1)
    (decide (toSigned128 x.wide1 < toSigned128 y.wide1))
    (decide (toSigned128 y.wide1 < toSigned128 x.wide1))

end i256

/-! ## Theorems -/

/-- A wrapping shift by a reduced amount is multiplication by a power of two
followed by reduction modulo `2 ^ 256`. -/
theorem u256.wrapping_shl_eq (a rhs : Nat) (ha : a < u256.M) :
    u256.wrapping_shl a rhs = a * 2 ^ (rhs % 256) % u256.M := by
  have hM : u256.M = 2 ^ 256 := rfl
  unfold u256.wrapping_shl u256.shl_u128 u256.new u256.low u256.high
  dsimp only
  have h1 : a % 2 ^ 128 + 2 ^ 128 * (a / 2 ^ 128 % 2 ^ 128) = a := by omega
  rw [h1]
  have h2 : a * 2 ^ (rhs % 256) % u256.M < 2 ^ 256 := by
    rw [hM]; exact Nat.mod_lt _ (by norm_num)
  omega

/-- Truncation does not change the residue modulo `2 ^ 256`. -/
theorem i256.wrapInt_emod (v : Int) :
    i256.wrapInt v % 2 ^ 256 = v % 2 ^ 256 := by
  unfold i256.wrapInt; omega

/-- Truncation lands in the signed 256-bit range. -/
theorem i256.wrapInt_range (v : Int) :
    -(2 ^ 255) ≤ i256.wrapInt v ∧ i256.wrapInt v < 2 ^ 255 := by
  unfold i256.wrapInt; constructor <;> omega

/-- The loop computes `acc * base ^ exp` modulo `2 ^ 256`. -/
theorem u256.pow_loop_spec (exp : Nat) : ∀ acc base : Nat, exp ≠ 0 →
    u256.pow_loop acc base exp = acc * base ^ exp % u256.M := by
  induction exp using Nat.strong_induction_on with
  | _ exp ih =>
    intro acc base hexp
    rw [u256.pow_loop, dif_neg hexp]
    by_cases hodd : exp % 2 = 1
    · rw [if_pos hodd]
      by_cases h1 : exp = 1
      · subst h1
        simp [u256.wrapping_mul]
      · rw [if_neg h1, ih (exp / 2) (by omega) _ _ (by omega)]
        unfold u256.wrapping_mul
        have e1 : acc * base % u256.M * ((base * base % u256.M) ^ (exp / 2))
            % u256.M = acc * base * ((base * base) ^ (exp / 2)) % u256.M := by
          conv_rhs => rw [Nat.mul_mod, Nat.pow_mod]
          conv_lhs => rw [Nat.mul_mod, Nat.pow_mod]
          simp [Nat.mod_mod]
        rw [e1]
        have e2 : exp = 2 * (exp / 2) + 1 := by omega
        rw [show acc * base * (base * base) ^ (exp / 2)
            = acc * base ^ (2 * (exp / 2) + 1) from by ring, ← e2]
    · rw [if_neg hodd, ih (exp / 2) (by omega) _ _ (by omega)]
      unfold u256.wrapping_mul
      have e1 : acc * ((base * base % u256.M) ^ (exp / 2)) % u256.M
          = acc * ((base * base) ^ (exp / 2)) % u256.M := by
        conv_rhs => rw [Nat.mul_mod, Nat.pow_mod]
        conv_lhs => rw [Nat.mul_mod, Nat.pow_mod]
        simp [Nat.mod_mod]
      rw [e1]
      have e2 : exp = 2 * (exp / 2) := by omega
      rw [show acc * (base * base) ^ (exp / 2)
          = acc * base ^ (2 * (exp / 2)) from by ring, ← e2]

/-- C6.  `wrapping_pow(a, exp)`, computed by the exponentiation-by-squaring
loop, equals `a ^ exp` reduced modulo `2 ^ 256`, and in particular
`wrapping_pow(a, 0) = 1` for every base. -/
theorem claim_C6_wrapping_pow (a exp : Nat) :
    u256.wrapping_pow a exp = a ^ exp % u256.M ∧
    u256.wrapping_pow a 0 = 1 := by
  constructor
  · unfold u256.wrapping_pow
    by_cases h : exp = 0
    · subst h
      simp [u256.M]
    · rw [if_neg h, u256.pow_loop_spec exp 1 a h, Nat.one_mul]
  · rfl

/-! ### C5: carrying_add -/

/-- C5.  For all unsigned values `a`, `b` and carry bit, `carrying_add`
returns the sum modulo `2 ^ 256` together with the exact carry-out (the OR
of the two chained overflow signals equals the true carry), and the two
chained stages can never both overflow; for the signed type the value
component is likewise the two's-complement truncation of
`a + b + carry_in`. -/
theorem claim_C5_carrying_add (a b : Nat) (carry : Bool)
    (ha : a < u256.M) (hb : b < u256.M) (sa sb : Int) :
    (u256.carrying_add a b carry).1 =
      (a + b + (if carry then 1 else 0)) % u256.M ∧
    ((u256.carrying_add a b carry).2 = true ↔
      u256.M ≤ a + b + (if carry then 1 else 0)) ∧
    ¬((u256.overflowing_add a b).2 = true ∧
      (u256.overflowing_add_ulimb (u256.overflowing_add a b).1
        (if carry then 1 else 0)).2 = true) ∧
    (i256.carrying_add sa sb carry).1 =
      i256.wrapInt (sa + sb + (if carry then 1 else 0)) := by
  have hM : u256.M = 2 ^ 256 := rfl
  rw [hM] at ha hb
  have hsigned : (i256.carrying_add sa sb carry).1 =
      i256.wrapInt (sa + sb + (if carry then 1 else 0)) := by
    cases carry <;>
      simp [i256.carrying_add, i256.overflowing_add,
        i256.overflowing_add_ulimb, i256.wrapInt] <;>
      omega
  refine ⟨?_, ?_, ?_, hsigned⟩ <;>
    cases carry <;>
      simp [u256.carrying_add, u256.overflowing_add,
        u256.overflowing_add_ulimb, u256.M, Bool.or_eq_true,
        decide_eq_true_eq] <;>
      omega

/-- Witness for C5 at `a = 2 ^ 256 - 1`, `b = 1`, `carry = true`,
`sa = 2 ^ 255 - 1`, `sb = 1`. -/
theorem claim_C5_carrying_add_witness :
    (u256.carrying_add (2 ^ 256 - 1) 1 true).1 =
      (2 ^ 256 - 1 + 1 + 1) % u256.M ∧
    ((u256.carrying_add (2 ^ 256 - 1) 1 true).2 = true ↔
      u256.M ≤ 2 ^ 256 - 1 + 1 + 1) ∧
    (i256.carrying_add (2 ^ 255 - 1) 1 true).1 =
      i256.wrapInt (2 ^ 255 - 1 + 1 + 1) := by
  have h := claim_C5_carrying_add (2 ^ 256 - 1) 1 true
    (by unfold u256.M; omega) (by unfold u256.M; norm_num)
    (2 ^ 255 - 1) 1
  exact ⟨h.1, h.2.1, h.2.2.2⟩

/-! ### C7: checked / strict / unbounded shifts -/

/-- C7.  `checked_shl`/`checked_shr` fail exactly when the raw shift amount
is at least 256 and otherwise return the wrapping shift; `strict_shl`/
`strict_shr` panic (embedded as `none`) exactly in that case; and
`unbounded_shl`/`unbounded_shr` return zero in that case instead of masking
the amount. -/
theorem claim_C7_shift_range (a rhs : Nat) :
    (u256.checked_shl a rhs = none ↔ 256 ≤ rhs) ∧
    (u256.checked_shr a rhs = none ↔ 256 ≤ rhs) ∧
    (rhs < 256 → u256.checked_shl a rhs = some (u256.wrapping_shl a rhs)) ∧
    (rhs < 256 → u256.checked_shr a rhs = some (u256.wrapping_shr a rhs)) ∧
    (u256.strict_shl a rhs = none ↔ 256 ≤ rhs) ∧
    (u256.strict_shr a rhs = none ↔ 256 ≤ rhs) ∧
    (rhs < 256 → u256.strict_shl a rhs = some (u256.wrapping_shl a rhs)) ∧
    (rhs < 256 → u256.strict_shr a rhs = some (u256.wrapping_shr a rhs)) ∧
    (256 ≤ rhs → u256.unbounded_shl a rhs = 0) ∧
    (256 ≤ rhs → u256.unbounded_shr a rhs = 0) ∧
    (rhs < 256 → u256.unbounded_shl a rhs = u256.wrapping_shl a rhs) ∧
    (rhs < 256 → u256.unbounded_shr a rhs = u256.wrapping_shr a rhs) := by
  unfold u256.strict_shl u256.strict_shr u256.checked_shl u256.checked_shr
    u256.unbounded_shl u256.unbounded_shr
  by_cases h : rhs < 256 <;> simp [h] <;> omega

/-- Witness for C7 at `a = 3`, in-range amount 5 and out-of-range amount
300. -/
theorem claim_C7_shift_range_witness :
    u256.checked_shl 3 300 = none ∧
    u256.checked_shl 3 5 = some (u256.wrapping_shl 3 5) ∧
    u256.strict_shr 3 300 = none ∧
    u256.unbounded_shl 3 300 = 0 ∧
    u256.unbounded_shr 3 5 = u256.wrapping_shr 3 5 := by
  have hout := claim_C7_shift_range 3 300
  have hin := claim_C7_shift_range 3 5
  exact ⟨hout.1.mpr (by norm_num), hin.2.2.1 (by norm_num),
    hout.2.2.2.2.2.1.mpr (by norm_num),
    hout.2.2.2.2.2.2.2.2.1 (by norm_num),
    hin.2.2.2.2.2.2.2.2.2.2.2 (by norm_num)⟩

/-! ### C8: wrapping shifts mask the amount -/

/-- C8.  The wrapping shifts take the shift amount modulo `BITS = 256`:
shifting by `k` equals shifting by `k % 256`. -/
theorem claim_C8_wrapping_shift_mask (a k : Nat) :
    u256.wrapping_shl a k = u256.wrapping_shl a (k % 256) ∧
    u256.wrapping_shr a k = u256.wrapping_shr a (k % 256) := by
  have h : k % 256 % 256 = k % 256 := by omega
  unfold u256.wrapping_shl u256.wrapping_shr
  rw [h]
  exact ⟨rfl, rfl⟩

/-! ### C10: the single-limb overflowing division flag -/

/-- C10.  For every nonzero limb divisor, `overflowing_div_rem_ulimb`
returns the `wrapping_div_rem_ulimb` result with an overflow flag of
`false`, and hence `overflowing_div_ulimb` and `overflowing_rem_ulimb` also
report `false` on every input on which they return. -/
theorem claim_C10_overflowing_div_rem_ulimb (a n : Nat) (hn : n ≠ 0) :
    u256.overflowing_div_rem_ulimb a n = some ((a / n, a % n), false) ∧
    u256.wrapping_div_rem_ulimb a n = some (a / n, a % n) ∧
    u256.overflowing_div_ulimb a n = some (a / n, false) ∧
    u256.overflowing_rem_ulimb a n = some (a % n, false) := by
  unfold u256.overflowing_div_ulimb u256.overflowing_rem_ulimb
    u256.overflowing_div_rem_ulimb u256.wrapping_div_rem_ulimb
  simp [hn]

/-- Witness for C10 at `a = 1000`, `n = 7`. -/
theorem claim_C10_overflowing_div_rem_ulimb_witness :
    u256.overflowing_div_rem_ulimb 1000 7 = some ((142, 6), false) ∧
    u256.overflowing_rem_ulimb 1000 7 = some (6, false) := by
  have h := claim_C10_overflowing_div_rem_ulimb 1000 7 (by norm_num)
  exact ⟨h.1, h.2.2.2⟩

/-! ### C2: checked_rem on the forbidden signed division -/

/-- C2 counterexample.  `checked_rem(MIN, -1)` returns `None`, not a `Some`
result: the `is_div_none` predicate guarding `checked_rem` is the same one
that guards `checked_div`. -/
theorem claim_C2_counterexample :
    i256.checked_rem i256.MIN (-1) = none := by
  unfold i256.checked_rem i256.is_div_none
  norm_num

/-- C2 amended.  `checked_rem` returns `None` exactly when the divisor is
zero or the dividend is `MIN` and the divisor is `-1` — the same condition
as `checked_div`, because both delegate to the single `is_div_none`
predicate. -/
theorem claim_C2_checked_rem_none_iff (a n : Int) :
    (i256.checked_rem a n = none ↔ (n = 0 ∨ (a = i256.MIN ∧ n = -1))) ∧
    (i256.checked_div a n = none ↔ (n = 0 ∨ (a = i256.MIN ∧ n = -1))) := by
  unfold i256.checked_rem i256.checked_div i256.is_div_none
    i256.wrapping_rem i256.wrapping_div
  by_cases h0 : n = 0 <;> by_cases h1 : a = i256.MIN <;>
    by_cases h2 : n = -1 <;> simp [h0, h1, h2]

/-! ### C1: the division identity for div_rem -/

/-- C1.  For the unsigned type: for every nonzero divisor `b`, `div_rem`
returns the exact quotient and remainder, which satisfy the wrapping
reconstruction identity `a == b.wrapping_mul(q).wrapping_add(r)` and
`0 <= r < b`; for `b = 0` it fails (panics, embedded as `none`); and the
two overflow-check configurations of `div_rem` agree.  For the signed type
(default configuration): the same reconstruction identity holds for every
nonzero divisor, including the wrapped `MIN / -1` case, and a zero divisor
fails. -/
theorem claim_C1_div_rem :
    (∀ a b : Nat, a < u256.M → b < u256.M →
      (b ≠ 0 → u256.div_rem a b = some (a / b, a % b) ∧
        u256.wrapping_add (u256.wrapping_mul b (a / b)) (a % b) = a ∧
        a % b < b) ∧
      (b = 0 → u256.div_rem a b = none) ∧
      u256.checked_div_rem a b = u256.div_rem a b) ∧
    (∀ a b : Int, -(2 ^ 255) ≤ a → a < 2 ^ 255 → -(2 ^ 255) ≤ b →
      b < 2 ^ 255 → b ≠ 0 →
      ∃ q r, i256.wrapping_div_rem a b = some (q, r) ∧
        i256.wrapping_add (i256.wrapping_mul b q) r = a) ∧
    (∀ a : Int, i256.wrapping_div_rem a 0 = none) := by
  refine ⟨?_, ?_, ?_⟩
  · intro a b ha hb
    refine ⟨?_, ?_, ?_⟩
    · intro hbz
      refine ⟨?_, ?_, ?_⟩
      · unfold u256.div_rem u256.wrapping_div_rem
        rw [if_neg hbz]
      · unfold u256.wrapping_add u256.wrapping_mul
        have hle : b * (a / b) ≤ a := by
          have := Nat.div_mul_le_self a b
          calc b * (a / b) = a / b * b := Nat.mul_comm _ _
            _ ≤ a := this
        have hlt : b * (a / b) < u256.M := lt_of_le_of_lt hle ha
        rw [Nat.mod_eq_of_lt hlt, Nat.div_add_mod, Nat.mod_eq_of_lt ha]
      · exact Nat.mod_lt a (Nat.pos_of_ne_zero hbz)
    · intro hbz
      unfold u256.div_rem u256.wrapping_div_rem
      rw [if_pos hbz]
    · unfold u256.checked_div_rem u256.is_div_none u256.div_rem
        u256.wrapping_div_rem
      by_cases hbz : b = 0 <;> simp [hbz]
  · intro a b ha1 ha2 hb1 hb2 hbz
    refine ⟨i256.wrapInt (a.tdiv b), i256.wrapInt (a.tmod b), ?_, ?_⟩
    · unfold i256.wrapping_div_rem
      rw [if_neg hbz]
    · set q := i256.wrapInt (a.tdiv b) with hq
      set r := i256.wrapInt (a.tmod b) with hr
      have hmul : i256.wrapping_mul b q % 2 ^ 256 = b * a.tdiv b % 2 ^ 256 := by
        unfold i256.wrapping_mul
        rw [i256.wrapInt_emod, Int.mul_emod, hq, i256.wrapInt_emod,
          ← Int.mul_emod]
      have hsum : i256.wrapping_add (i256.wrapping_mul b q) r % 2 ^ 256 =
          (b * a.tdiv b + a.tmod b) % 2 ^ 256 := by
        unfold i256.wrapping_add
        rw [i256.wrapInt_emod, Int.add_emod, hmul, hr, i256.wrapInt_emod,
          ← Int.add_emod]
      have hid : b * a.tdiv b + a.tmod b = a := by
        have := Int.tmod_add_tdiv a b
        linarith
      rw [hid] at hsum
      have hrange := i256.wrapInt_range (i256.wrapping_mul b q + r)
      unfold i256.wrapping_add i256.wrapInt at hsum ⊢
      omega
  · intro a
    unfold i256.wrapping_div_rem
    norm_num

/-- Witness for C1 at `a = 1000`, `b = 7` (unsigned), `a = -1000`,
`b = 7` (signed), and zero divisors. -/
theorem claim_C1_div_rem_witness :
    u256.div_rem 1000 7 = some (142, 6) ∧
    u256.wrapping_add (u256.wrapping_mul 7 (1000 / 7)) (1000 % 7) = 1000 ∧
    u256.div_rem 1000 0 = none ∧
    (∃ q r, i256.wrapping_div_rem (-1000) 7 = some (q, r) ∧
      i256.wrapping_add (i256.wrapping_mul 7 q) r = -1000) ∧
    i256.wrapping_div_rem (-1000) 0 = none := by
  have h := claim_C1_div_rem
  have hu := h.1 1000 7 (by unfold u256.M; norm_num) (by unfold u256.M; norm_num)
  have hu0 := h.1 1000 0 (by unfold u256.M; norm_num) (by unfold u256.M; norm_num)
  have hs := h.2.1 (-1000) 7 (by norm_num) (by norm_num) (by norm_num)
    (by norm_num) (by norm_num)
  exact ⟨(hu.1 (by norm_num)).1, (hu.1 (by norm_num)).2.1, hu0.2.1 rfl,
    hs, h.2.2 (-1000)⟩

/-- C4, failing-input evaluation.  In the 8 x 32-bit limb configuration the
value 1 (limb list `[1,0,0,0,0,0,0,0]`) is mapped by `reverse_bits` to the
value 0, because the hardcoded `while i < 4` loop leaves the upper four
result limbs zero; the full 256-bit bit-reversal of 1 is `2 ^ 255`, so the
code does not reverse the bit order in that configuration. -/
theorem claim_C4_reverse_bits_bug :
    limbsValue 32 [1, 0, 0, 0, 0, 0, 0, 0] = 1 ∧
    limbsValue 32 (reverse_bits_limbs 32 8 [1, 0, 0, 0, 0, 0, 0, 0]) = 0 ∧
    revBits 256 1 = 2 ^ 255 ∧
    (0 : Nat) ≠ 2 ^ 255 ∧
    limbsValue 64 [1, 0, 0, 0] = 1 ∧
    limbsValue 64 (reverse_bits_limbs 64 4 [1, 0, 0, 0]) = 2 ^ 255 ∧
    limbsValue 32 (swap_bytes_limbs 32 8 [1, 0, 0, 0, 0, 0, 0, 0]) = 2 ^ 248 := by
  refine ⟨by decide, by decide, by decide, by decide, by decide, by decide,
    by decide⟩

/-! ### C9: round-trips through every representation -/

/-- A limb byte-swap always yields a 64-bit value. -/
theorem Limbs256.bswap64_lt (v : Nat) : Limbs256.bswap64 v < 2 ^ 64 := by
  unfold Limbs256.bswap64 Limbs256.fromLE8
  omega

/-- Byte extraction inverts `fromLE8` on byte-sized digits. -/
theorem Limbs256.fromLE8_bytes (b0 b1 b2 b3 b4 b5 b6 b7 : Nat)
    (h0 : b0 < 256) (h1 : b1 < 256) (h2 : b2 < 256) (h3 : b3 < 256)
    (h4 : b4 < 256) (h5 : b5 < 256) (h6 : b6 < 256) (h7 : b7 < 256) :
    Limbs256.fromLE8 b0 b1 b2 b3 b4 b5 b6 b7 % 256 = b0 ∧
    Limbs256.fromLE8 b0 b1 b2 b3 b4 b5 b6 b7 / 2 ^ 8 % 256 = b1 ∧
    Limbs256.fromLE8 b0 b1 b2 b3 b4 b5 b6 b7 / 2 ^ 16 % 256 = b2 ∧
    Limbs256.fromLE8 b0 b1 b2 b3 b4 b5 b6 b7 / 2 ^ 24 % 256 = b3 ∧
    Limbs256.fromLE8 b0 b1 b2 b3 b4 b5 b6 b7 / 2 ^ 32 % 256 = b4 ∧
    Limbs256.fromLE8 b0 b1 b2 b3 b4 b5 b6 b7 / 2 ^ 40 % 256 = b5 ∧
    Limbs256.fromLE8 b0 b1 b2 b3 b4 b5 b6 b7 / 2 ^ 48 % 256 = b6 ∧
    Limbs256.fromLE8 b0 b1 b2 b3 b4 b5 b6 b7 / 2 ^ 56 % 256 = b7 := by
  unfold Limbs256.fromLE8
  refine ⟨?_, ?_, ?_, ?_, ?_, ?_, ?_, ?_⟩ <;> omega

/-- Byte-swapping a 64-bit limb twice is the identity. -/
theorem Limbs256.bswap64_bswap64 (v : Nat) (h : v < 2 ^ 64) :
    Limbs256.bswap64 (Limbs256.bswap64 v) = v := by
  have hS : Limbs256.bswap64 v =
      Limbs256.fromLE8 (v / 2 ^ 56 % 256) (v / 2 ^ 48 % 256)
        (v / 2 ^ 40 % 256) (v / 2 ^ 32 % 256) (v / 2 ^ 24 % 256)
        (v / 2 ^ 16 % 256) (v / 2 ^ 8 % 256) (v % 256) := rfl
  have hb := Limbs256.fromLE8_bytes (v / 2 ^ 56 % 256) (v / 2 ^ 48 % 256)
    (v / 2 ^ 40 % 256) (v / 2 ^ 32 % 256) (v / 2 ^ 24 % 256)
    (v / 2 ^ 16 % 256) (v / 2 ^ 8 % 256) (v % 256)
    (by omega) (by omega) (by omega) (by omega)
    (by omega) (by omega) (by omega) (by omega)
  rw [← hS] at hb
  obtain ⟨e0, e1, e2, e3, e4, e5, e6, e7⟩ := hb
  rw [show Limbs256.bswap64 (Limbs256.bswap64 v) =
      Limbs256.fromLE8 (Limbs256.bswap64 v / 2 ^ 56 % 256)
        (Limbs256.bswap64 v / 2 ^ 48 % 256) (Limbs256.bswap64 v / 2 ^ 40 % 256)
        (Limbs256.bswap64 v / 2 ^ 32 % 256) (Limbs256.bswap64 v / 2 ^ 24 % 256)
        (Limbs256.bswap64 v / 2 ^ 16 % 256) (Limbs256.bswap64 v / 2 ^ 8 % 256)
        (Limbs256.bswap64 v % 256) from rfl]
  rw [e0, e1, e2, e3, e4, e5, e6, e7]
  unfold Limbs256.fromLE8
  omega

/-- The result of `swap_bytes` is always well formed. -/
theorem Limbs256.wf_swap_bytes (x : Limbs256) : (Limbs256.swap_bytes x).Wf :=
  ⟨Limbs256.bswap64_lt _, Limbs256.bswap64_lt _,
   Limbs256.bswap64_lt _, Limbs256.bswap64_lt _⟩

/-- `swap_bytes` is an involution on well-formed values. -/
theorem Limbs256.swap_bytes_swap_bytes (x : Limbs256) (h : x.Wf) :
    Limbs256.swap_bytes (Limbs256.swap_bytes x) = x := by
  obtain ⟨a, b, c, d⟩ := x
  simp only [Limbs256.swap_bytes, Limbs256.mk.injEq]
  exact ⟨Limbs256.bswap64_bswap64 a h.1, Limbs256.bswap64_bswap64 b h.2.1,
    Limbs256.bswap64_bswap64 c h.2.2.1, Limbs256.bswap64_bswap64 d h.2.2.2⟩

/-- The native-endian byte round-trip restores well-formed limbs. -/
theorem Limbs256.from_to_ne_bytes (a b c d : Nat) (h0 : a < 2 ^ 64)
    (h1 : b < 2 ^ 64) (h2 : c < 2 ^ 64) (h3 : d < 2 ^ 64) :
    Limbs256.from_ne_bytes (Limbs256.to_ne_bytes ⟨a, b, c, d⟩) = ⟨a, b, c, d⟩ := by
  have hr : Limbs256.from_ne_bytes (Limbs256.to_ne_bytes ⟨a, b, c, d⟩) =
      ⟨Limbs256.fromLE8 (a % 256) (a / 2 ^ 8 % 256) (a / 2 ^ 16 % 256)
         (a / 2 ^ 24 % 256) (a / 2 ^ 32 % 256) (a / 2 ^ 40 % 256)
         (a / 2 ^ 48 % 256) (a / 2 ^ 56 % 256),
       Limbs256.fromLE8 (b % 256) (b / 2 ^ 8 % 256) (b / 2 ^ 16 % 256)
         (b / 2 ^ 24 % 256) (b / 2 ^ 32 % 256) (b / 2 ^ 40 % 256)
         (b / 2 ^ 48 % 256) (b / 2 ^ 56 % 256),
       Limbs256.fromLE8 (c % 256) (c / 2 ^ 8 % 256) (c / 2 ^ 16 % 256)
         (c / 2 ^ 24 % 256) (c / 2 ^ 32 % 256) (c / 2 ^ 40 % 256)
         (c / 2 ^ 48 % 256) (c / 2 ^ 56 % 256),
       Limbs256.fromLE8 (d % 256) (d / 2 ^ 8 % 256) (d / 2 ^ 16 % 256)
         (d / 2 ^ 24 % 256) (d / 2 ^ 32 % 256) (d / 2 ^ 40 % 256)
         (d / 2 ^ 48 % 256) (d / 2 ^ 56 % 256)⟩ := rfl
  rw [hr]
  simp only [Limbs256.fromLE8, Limbs256.mk.injEq]
  refine ⟨?_, ?_, ?_, ?_⟩ <;> omega

/-- The native-endian wide-word round-trip restores well-formed limbs. -/
theorem Limbs256.from_to_ne_wide (a b c d : Nat) (h0 : a < 2 ^ 64)
    (h1 : b < 2 ^ 64) (h2 : c < 2 ^ 64) (h3 : d < 2 ^ 64) :
    Limbs256.from_ne_wide (Limbs256.to_ne_wide ⟨a, b, c, d⟩) = ⟨a, b, c, d⟩ := by
  have hr : Limbs256.from_ne_wide (Limbs256.to_ne_wide ⟨a, b, c, d⟩) =
      ⟨(a % 2 ^ 64 + 2 ^ 64 * (b % 2 ^ 64)) % 2 ^ 64,
       (a % 2 ^ 64 + 2 ^ 64 * (b % 2 ^ 64)) / 2 ^ 64 % 2 ^ 64,
       (c % 2 ^ 64 + 2 ^ 64 * (d % 2 ^ 64)) % 2 ^ 64,
       (c % 2 ^ 64 + 2 ^ 64 * (d % 2 ^ 64)) / 2 ^ 64 % 2 ^ 64⟩ := rfl
  rw [hr]
  simp only [Limbs256.mk.injEq]
  refine ⟨?_, ?_, ?_, ?_⟩ <;> omega

/-- The native-endian 32-bit-word round-trip restores well-formed limbs. -/
theorem Limbs256.from_to_ne_u32 (a b c d : Nat) (h0 : a < 2 ^ 64)
    (h1 : b < 2 ^ 64) (h2 : c < 2 ^ 64) (h3 : d < 2 ^ 64) :
    Limbs256.from_ne_u32 (Limbs256.to_ne_u32 ⟨a, b, c, d⟩) = ⟨a, b, c, d⟩ := by
  have hr : Limbs256.from_ne_u32 (Limbs256.to_ne_u32 ⟨a, b, c, d⟩) =
      ⟨a % 2 ^ 32 % 2 ^ 32 + 2 ^ 32 * (a / 2 ^ 32 % 2 ^ 32 % 2 ^ 32),
       b % 2 ^ 32 % 2 ^ 32 + 2 ^ 32 * (b / 2 ^ 32 % 2 ^ 32 % 2 ^ 32),
       c % 2 ^ 32 % 2 ^ 32 + 2 ^ 32 * (c / 2 ^ 32 % 2 ^ 32 % 2 ^ 32),
       d % 2 ^ 32 % 2 ^ 32 + 2 ^ 32 * (d / 2 ^ 32 % 2 ^ 32 % 2 ^ 32)⟩ := rfl
  rw [hr]
  simp only [Limbs256.mk.injEq]
  refine ⟨?_, ?_, ?_, ?_⟩ <;> omega

/-- The native-endian 64-bit-word round-trip restores well-formed limbs. -/
theorem Limbs256.from_to_ne_u64 (a b c d : Nat) (h0 : a < 2 ^ 64)
    (h1 : b < 2 ^ 64) (h2 : c < 2 ^ 64) (h3 : d < 2 ^ 64) :
    Limbs256.from_ne_u64 (Limbs256.to_ne_u64 ⟨a, b, c, d⟩) = ⟨a, b, c, d⟩ := by
  have hr : Limbs256.from_ne_u64 (Limbs256.to_ne_u64 ⟨a, b, c, d⟩) =
      ⟨a % 2 ^ 64 % 2 ^ 64, b % 2 ^ 64 % 2 ^ 64,
       c % 2 ^ 64 % 2 ^ 64, d % 2 ^ 64 % 2 ^ 64⟩ := rfl
  rw [hr]
  simp only [Limbs256.mk.injEq]
  refine ⟨?_, ?_, ?_, ?_⟩ <;> omega

/-- The big-endian 64-bit-word round-trip restores well-formed limbs (the
two array reversals cancel). -/
theorem Limbs256.from_to_be_u64 (a b c d : Nat) (h0 : a < 2 ^ 64)
    (h1 : b < 2 ^ 64) (h2 : c < 2 ^ 64) (h3 : d < 2 ^ 64) :
    Limbs256.from_be_u64 (Limbs256.to_be_u64 ⟨a, b, c, d⟩) = ⟨a, b, c, d⟩ := by
  have hr : Limbs256.from_be_u64 (Limbs256.to_be_u64 ⟨a, b, c, d⟩) =
      ⟨a % 2 ^ 64 % 2 ^ 64, b % 2 ^ 64 % 2 ^ 64,
       c % 2 ^ 64 % 2 ^ 64, d % 2 ^ 64 % 2 ^ 64⟩ := rfl
  rw [hr]
  simp only [Limbs256.mk.injEq]
  refine ⟨?_, ?_, ?_, ?_⟩ <;> omega

/-- C9.  For every well-formed value and every supported representation —
bytes, limbs, wide words, `u32` arrays and `u64` arrays, each in big-endian,
little-endian and native-endian order — converting out and back returns the
value unchanged. -/
theorem claim_C9_roundtrips (x : Limbs256) (h : x.Wf) :
    Limbs256.from_ne_bytes (Limbs256.to_ne_bytes x) = x ∧
    Limbs256.from_le_bytes (Limbs256.to_le_bytes x) = x ∧
    Limbs256.from_be_bytes (Limbs256.to_be_bytes x) = x ∧
    Limbs256.from_ne_limbs (Limbs256.to_ne_limbs x) = x ∧
    Limbs256.from_le_limbs (Limbs256.to_le_limbs x) = x ∧
    Limbs256.from_be_limbs (Limbs256.to_be_limbs x) = x ∧
    Limbs256.from_ne_wide (Limbs256.to_ne_wide x) = x ∧
    Limbs256.from_le_wide (Limbs256.to_le_wide x) = x ∧
    Limbs256.from_be_wide (Limbs256.to_be_wide x) = x ∧
    Limbs256.from_ne_u32 (Limbs256.to_ne_u32 x) = x ∧
    Limbs256.from_le_u32 (Limbs256.to_le_u32 x) = x ∧
    Limbs256.from_be_u32 (Limbs256.to_be_u32 x) = x ∧
    Limbs256.from_ne_u64 (Limbs256.to_ne_u64 x) = x ∧
    Limbs256.from_le_u64 (Limbs256.to_le_u64 x) = x ∧
    Limbs256.from_be_u64 (Limbs256.to_be_u64 x) = x := by
  obtain ⟨a, b, c, d⟩ := x
  have h0 : a < 2 ^ 64 := h.1
  have h1 : b < 2 ^ 64 := h.2.1
  have h2 : c < 2 ^ 64 := h.2.2.1
  have h3 : d < 2 ^ 64 := h.2.2.2
  have hne_bytes := Limbs256.from_to_ne_bytes a b c d h0 h1 h2 h3
  have hbe_bytes : Limbs256.from_be_bytes
      (Limbs256.to_be_bytes ⟨a, b, c, d⟩) = ⟨a, b, c, d⟩ := by
    unfold Limbs256.from_be_bytes Limbs256.to_be_bytes Limbs256.to_be
    have hswap : Limbs256.swap_bytes ⟨a, b, c, d⟩ =
        ⟨Limbs256.bswap64 d, Limbs256.bswap64 c,
         Limbs256.bswap64 b, Limbs256.bswap64 a⟩ := rfl
    rw [hswap, Limbs256.from_to_ne_bytes _ _ _ _ (Limbs256.bswap64_lt d)
      (Limbs256.bswap64_lt c) (Limbs256.bswap64_lt b) (Limbs256.bswap64_lt a),
      ← hswap]
    exact Limbs256.swap_bytes_swap_bytes _ ⟨h0, h1, h2, h3⟩
  have hne_limbs : Limbs256.from_ne_limbs
      (Limbs256.to_ne_limbs ⟨a, b, c, d⟩) = ⟨a, b, c, d⟩ := rfl
  have hbe_limbs : Limbs256.from_be_limbs
      (Limbs256.to_be_limbs ⟨a, b, c, d⟩) = ⟨a, b, c, d⟩ := rfl
  have hne_wide := Limbs256.from_to_ne_wide a b c d h0 h1 h2 h3
  have hbe_wide : Limbs256.from_be_wide
      (Limbs256.to_be_wide ⟨a, b, c, d⟩) = ⟨a, b, c, d⟩ := by
    have hsame : Limbs256.from_be_wide (Limbs256.to_be_wide ⟨a, b, c, d⟩) =
        Limbs256.from_ne_wide (Limbs256.to_ne_wide ⟨a, b, c, d⟩) := rfl
    rw [hsame]; exact hne_wide
  have hne_u32 := Limbs256.from_to_ne_u32 a b c d h0 h1 h2 h3
  have hbe_u32 : Limbs256.from_be_u32
      (Limbs256.to_be_u32 ⟨a, b, c, d⟩) = ⟨a, b, c, d⟩ := by
    have hsame : Limbs256.from_be_u32 (Limbs256.to_be_u32 ⟨a, b, c, d⟩) =
        Limbs256.from_ne_u32 (Limbs256.to_ne_u32 ⟨a, b, c, d⟩) := rfl
    rw [hsame]; exact hne_u32
  have hne_u64 := Limbs256.from_to_ne_u64 a b c d h0 h1 h2 h3
  exact ⟨hne_bytes, hne_bytes, hbe_bytes, hne_limbs, hne_limbs, hbe_limbs,
    hne_wide, hne_wide, hbe_wide, hne_u32, hne_u32, hbe_u32,
    hne_u64, hne_u64, Limbs256.from_to_be_u64 a b c d h0 h1 h2 h3⟩

/-- Witness for C9 at the value with limbs `[1, 2, 3, 2 ^ 64 - 1]`. -/
theorem claim_C9_roundtrips_witness :
    Limbs256.from_be_bytes
      (Limbs256.to_be_bytes ⟨1, 2, 3, 2 ^ 64 - 1⟩) = ⟨1, 2, 3, 2 ^ 64 - 1⟩ ∧
    Limbs256.from_le_wide
      (Limbs256.to_le_wide ⟨1, 2, 3, 2 ^ 64 - 1⟩) = ⟨1, 2, 3, 2 ^ 64 - 1⟩ := by
  have h := claim_C9_roundtrips ⟨1, 2, 3, 2 ^ 64 - 1⟩
    (by refine ⟨?_, ?_, ?_, ?_⟩ <;> norm_num)
  exact ⟨h.2.2.1, h.2.2.2.2.2.2.2.1⟩

/-- The non-short-circuiting ordering loop characterised on the two-word
case with a strict second comparison: lexicographic strict order. -/
theorem ordGo_lt_singleton (h1 h2 l1 l2 : Int) :
    ordGo (fun a b => decide (a < b)) [(l1, l2)]
      (decide (h1 < h2)) (h1 == h2) = true ↔
    (h1 < h2 ∨ (h1 = h2 ∧ l1 < l2)) := by
  by_cases hlt : h1 < h2
  · have hne : h1 = h2 → False := by omega
    simp [ordGo, hlt]
  · by_cases heq : h1 = h2
    · simp [ordGo, hlt, heq]
    · simp [ordGo, hlt, heq]

/-- The ordering loop on the two-word case with a non-strict second
comparison: lexicographic order with a final `≤`. -/
theorem ordGo_le_singleton (h1 h2 l1 l2 : Int) :
    ordGo (fun a b => decide (a ≤ b)) [(l1, l2)]
      (decide (h1 < h2)) (h1 == h2) = true ↔
    (h1 < h2 ∨ (h1 = h2 ∧ l1 ≤ l2)) := by
  by_cases hlt : h1 < h2
  · simp [ordGo, hlt]
  · by_cases heq : h1 = h2
    · simp [ordGo, hlt, heq]
    · simp [ordGo, hlt, heq]

/-- The three-way loop characterised on the two-word case. -/
theorem cmpGo_singleton (h1 h2 l1 l2 : Int) :
    (cmpGo [(l1, l2)] (h1 == h2) (decide (h1 < h2)) (decide (h2 < h1)) =
        .lt ↔ (h1 < h2 ∨ (h1 = h2 ∧ l1 < l2))) ∧
    (cmpGo [(l1, l2)] (h1 == h2) (decide (h1 < h2)) (decide (h2 < h1)) =
        .gt ↔ (h2 < h1 ∨ (h1 = h2 ∧ l2 < l1))) ∧
    (cmpGo [(l1, l2)] (h1 == h2) (decide (h1 < h2)) (decide (h2 < h1)) =
        .eq ↔ (h1 = h2 ∧ l1 = l2)) := by
  by_cases hlt : h1 < h2
  · have hgt : h2 < h1 → False := by omega
    have hne : h1 = h2 → False := by omega
    simp [cmpGo, hlt, hgt, hne]
    omega
  · by_cases heq : h1 = h2
    · have hgt : h2 < h1 → False := by omega
      by_cases hllt : l1 < l2
      · have hlgt : l2 < l1 → False := by omega
        have hlne : l1 = l2 → False := by omega
        simp [cmpGo, hlt, heq, hgt, hllt, hlgt, hlne]
        omega
      · by_cases hleq : l1 = l2
        · have hlgt : l2 < l1 → False := by omega
          simp [cmpGo, hlt, heq, hgt, hllt, hleq]
        · have hlgt : l2 < l1 := by omega
          simp [cmpGo, hlt, heq, hgt, hllt, hleq, hlgt]
    · have hgt : h2 < h1 := by omega
      simp [cmpGo, hlt, heq, hgt]

/-- The non-short-circuiting equality loop is absorbing on `false`. -/
theorem eqGoNS_false : ∀ l : List (Int × Int), eqGoNS l false = false := by
  intro l
  induction l with
  | nil => rfl
  | cons p rest ih => simp [eqGoNS, ih]

/-- The short-circuiting and non-short-circuiting equality loops agree on
every input. -/
theorem eqGo_agree : ∀ (l : List (Int × Int)) (acc : Bool),
    eqGoSC l acc = eqGoNS l acc := by
  intro l
  induction l with
  | nil => intro acc; rfl
  | cons p rest ih =>
    intro acc
    cases acc
    · simp [eqGoSC, eqGoNS, eqGoNS_false]
    · simp [eqGoSC, eqGoNS, ih]

/-- The equality loop on the two-word case. -/
theorem eqGoNS_pair_iff (a1 a2 b1 b2 : Int) :
    eqGoNS [(a1, a2), (b1, b2)] true = true ↔ (a1 = a2 ∧ b1 = b2) := by
  simp [eqGoNS]

/-- The three-way result is `Less` exactly when the strict ordering loop
answers `true`, `Greater` exactly when the non-strict loop answers `false`,
and `Equal` exactly when the equality loop over the same two words answers
`true`. -/
theorem cmp_consistency (h1 h2 l1 l2 : Int) :
    (cmpGo [(l1, l2)] (h1 == h2) (decide (h1 < h2)) (decide (h2 < h1)) =
        .lt ↔ ordGo (fun a b => decide (a < b)) [(l1, l2)]
          (decide (h1 < h2)) (h1 == h2) = true) ∧
    (cmpGo [(l1, l2)] (h1 == h2) (decide (h1 < h2)) (decide (h2 < h1)) =
        .gt ↔ (!ordGo (fun a b => decide (a ≤ b)) [(l1, l2)]
          (decide (h1 < h2)) (h1 == h2)) = true) ∧
    (cmpGo [(l1, l2)] (h1 == h2) (decide (h1 < h2)) (decide (h2 < h1)) =
        .eq ↔ eqGoNS [(l1, l2), (h1, h2)] true = true) := by
  obtain ⟨hc1, hc2, hc3⟩ := cmpGo_singleton h1 h2 l1 l2
  refine ⟨?_, ?_, ?_⟩
  · rw [hc1, ordGo_lt_singleton]
  · rw [hc2]
    cases hle : ordGo (fun a b => decide (a ≤ b)) [(l1, l2)]
        (decide (h1 < h2)) (h1 == h2)
    · have h := ordGo_le_singleton h1 h2 l1 l2
      rw [hle] at h
      simp at h ⊢
      omega
    · have h := ordGo_le_singleton h1 h2 l1 l2
      rw [hle] at h
      simp at h ⊢
      omega
  · rw [hc3, eqGoNS_pair_iff]
    constructor
    · intro h
      exact ⟨h.2, h.1⟩
    · intro h
      exact ⟨h.2, h.1⟩

/-- Both wide words are 128-bit values. -/
theorem Limbs256.wide_lt (x : Limbs256) :
    x.wide0 < 2 ^ 128 ∧ x.wide1 < 2 ^ 128 := by
  obtain ⟨a, b, c, d⟩ := x
  have h0 : Limbs256.wide0 ⟨a, b, c, d⟩ =
      a % 2 ^ 64 + 2 ^ 64 * (b % 2 ^ 64) := rfl
  have h1 : Limbs256.wide1 ⟨a, b, c, d⟩ =
      c % 2 ^ 64 + 2 ^ 64 * (d % 2 ^ 64) := rfl
  rw [h0, h1]
  constructor <;> omega

/-- The signed reinterpretation is injective on 128-bit words. -/
theorem toSigned128_inj (u v : Nat) (hu : u < 2 ^ 128) (hv : v < 2 ^ 128) :
    toSigned128 u = toSigned128 v ↔ u = v := by
  unfold toSigned128
  split_ifs <;> omega

/-- C3.  For every pair of same-width values, the short-circuiting and
non-short-circuiting comparison implementations return identical results
(for both the unsigned and the signed instantiation), and `cmp_const` is
consistent with the individual predicates: it answers `Less` exactly when
`lt_const` holds, `Equal` exactly when `eq_const` holds, and `Greater`
exactly when `gt_const` holds. -/
theorem claim_C3_comparisons (x y : Limbs256) :
    (u256.eq_const_short x y = u256.eq_const x y) ∧
    (u256.lt_const_short x y = u256.lt_const x y) ∧
    (u256.le_const_short x y = u256.le_const x y) ∧
    (u256.gt_const_short x y = u256.gt_const x y) ∧
    (u256.ge_const_short x y = u256.ge_const x y) ∧
    (u256.cmp_const_short x y = u256.cmp_const x y) ∧
    (u256.cmp_const x y = .lt ↔ u256.lt_const x y = true) ∧
    (u256.cmp_const x y = .eq ↔ u256.eq_const x y = true) ∧
    (u256.cmp_const x y = .gt ↔ u256.gt_const x y = true) ∧
    (i256.eq_const_short x y = i256.eq_const x y) ∧
    (i256.lt_const_short x y = i256.lt_const x y) ∧
    (i256.le_const_short x y = i256.le_const x y) ∧
    (i256.gt_const_short x y = i256.gt_const x y) ∧
    (i256.ge_const_short x y = i256.ge_const x y) ∧
    (i256.cmp_const_short x y = i256.cmp_const x y) ∧
    (i256.cmp_const x y = .lt ↔ i256.lt_const x y = true) ∧
    (i256.cmp_const x y = .eq ↔ i256.eq_const x y = true) ∧
    (i256.cmp_const x y = .gt ↔ i256.gt_const x y = true) := by
  have hu := cmp_consistency ((x.wide1 : Int)) ((y.wide1 : Int))
    ((x.wide0 : Int)) ((y.wide0 : Int))
  have hs := cmp_consistency (toSigned128 x.wide1) (toSigned128 y.wide1)
    ((x.wide0 : Int)) ((y.wide0 : Int))
  refine ⟨eqGo_agree _ _, rfl, rfl, rfl, rfl, rfl, hu.1, ?_, ?_,
    eqGo_agree _ _, rfl, rfl, rfl, rfl, rfl, hs.1, ?_, ?_⟩
  · unfold u256.cmp_const u256.eq_const
    rw [(cmpGo_singleton _ _ _ _).2.2, eqGoNS_pair_iff]
    simp only [Nat.cast_inj]
    constructor
    · intro h; exact ⟨h.2, h.1⟩
    · intro h; exact ⟨h.2, h.1⟩
  · exact hu.2.1
  · unfold i256.cmp_const i256.eq_const
    rw [(cmpGo_singleton _ _ _ _).2.2, eqGoNS_pair_iff]
    rw [toSigned128_inj _ _ (Limbs256.wide_lt x).2 (Limbs256.wide_lt y).2]
    simp only [Nat.cast_inj]
    constructor
    · intro h; exact ⟨h.2, h.1⟩
    · intro h; exact ⟨h.2, h.1⟩
  · exact hs.2.1
